import Mathlib

/-!
# Verification of the minimal GGUF metadata reader

Shallow embedding of `inspect_architecture.py`, the GGUF metadata
inspector with a raw-binary fallback parser (`inspect_gguf_raw`), the
wrapper `inspect_gguf`, and the `__main__` entry point.

Modelling conventions:
* A file/stream is a `List Nat` of bytes (each byte < 256 in well-formed
  streams); `f.read n` returns up to `n` bytes without failing, while a
  fixed-width `struct.unpack` on a short read raises, which we model with
  `Option`.
* Python `int` values decoded by `struct.unpack` with an unsigned format
  are `Nat`; a 32-bit IEEE float decoded by `"<f"` is represented by its
  4-byte little-endian bit pattern (byte-exact).
* Python's strict `bytes.decode("utf-8")` is `utf8Decode : List Nat →
  Option (List Nat)` (code points), and `bytes.decode("utf-8",
  errors="replace")` is the total `utf8DecodeRepl`, which substitutes
  U+FFFD for each maximal invalid subpart, as CPython does.
-/

namespace GGUFInspect

/-- A byte stream: the contents of the opened file, as a list of bytes. -/
abbrev ByteStream := List Nat

/-- Python `f.read n`: returns up to `n` bytes (fewer at end of file),
never failing, and advances the stream. -/
def streamRead (s : ByteStream) (n : Nat) : List Nat × ByteStream :=
  (s.take n, s.drop n)

/-- A fixed-width read followed by `struct.unpack`: Python raises
`struct.error` when fewer than `n` bytes remain, modelled by `none`. -/
def readExact (s : ByteStream) (n : Nat) : Option (List Nat × ByteStream) :=
  if n ≤ s.length then some (s.take n, s.drop n) else none

/-- Little-endian interpretation of a byte list as an unsigned integer,
as `struct.unpack` with formats `<I`, `<Q` does. -/
def leDecode : List Nat → Nat
  | [] => 0
  | b :: rest => b + 256 * leDecode rest

/-- Little-endian encoding of `n` into exactly `w` bytes (the documented
GGUF wire layout for fixed-width unsigned fields). -/
def leEncode (w : Nat) (n : Nat) : List Nat :=
  match w with
  | 0 => []
  | w + 1 => n % 256 :: leEncode w (n / 256)

/-- 4-byte little-endian encoding (u32 fields). -/
def encodeU32 (n : Nat) : List Nat := leEncode 4 n

/-- 8-byte little-endian encoding (u64 fields). -/
def encodeU64 (n : Nat) : List Nat := leEncode 8 n

/-- Strict UTF-8 decoding of a byte list into Unicode code points,
modelling Python `bytes.decode("utf-8")`: `none` when the bytes contain
an invalid sequence (UnicodeDecodeError). -/
def utf8Decode : List Nat → Option (List Nat)
  | [] => some []
  | b :: rest =>
    if b < 0x80 then (utf8Decode rest).map (fun cs => b :: cs)
    else if b < 0xC2 then none
    else if b < 0xE0 then
      match rest with
      | [] => none
      | b1 :: r1 =>
        if 0x80 ≤ b1 ∧ b1 < 0xC0 then
          (utf8Decode r1).map (fun cs => ((b - 0xC0) * 0x40 + (b1 - 0x80)) :: cs)
        else none
    else if b < 0xF0 then
      match rest with
      | [] => none
      | b1 :: r1 =>
        if (if b = 0xE0 then 0xA0 else 0x80) ≤ b1 ∧ b1 < (if b = 0xED then 0xA0 else 0xC0) then
          match r1 with
          | [] => none
          | b2 :: r2 =>
            if 0x80 ≤ b2 ∧ b2 < 0xC0 then
              (utf8Decode r2).map
                (fun cs => ((b - 0xE0) * 0x1000 + (b1 - 0x80) * 0x40 + (b2 - 0x80)) :: cs)
            else none
        else none
    else if b < 0xF5 then
      match rest with
      | [] => none
      | b1 :: r1 =>
        if (if b = 0xF0 then 0x90 else 0x80) ≤ b1 ∧ b1 < (if b = 0xF4 then 0x90 else 0xC0) then
          match r1 with
          | [] => none
          | b2 :: r2 =>
            if 0x80 ≤ b2 ∧ b2 < 0xC0 then
              match r2 with
              | [] => none
              | b3 :: r3 =>
                if 0x80 ≤ b3 ∧ b3 < 0xC0 then
                  (utf8Decode r3).map
                    (fun cs =>
                      ((b - 0xF0) * 0x40000 + (b1 - 0x80) * 0x1000 +
                        (b2 - 0x80) * 0x40 + (b3 - 0x80)) :: cs)
                else none
            else none
        else none
    else none

/-- The Unicode replacement character U+FFFD. -/
def replChar : Nat := 0xFFFD

/-- Lenient UTF-8 decoding, modelling Python
`bytes.decode("utf-8", errors="replace")`: each maximal invalid subpart
is replaced by one U+FFFD and decoding continues (CPython follows the
WHATWG/Unicode "maximal subpart" substitution). Total function. -/
def utf8DecodeRepl : List Nat → List Nat
  | [] => []
  | b :: rest =>
    if b < 0x80 then b :: utf8DecodeRepl rest
    else if b < 0xC2 then replChar :: utf8DecodeRepl rest
    else if b < 0xE0 then
      match rest with
      | [] => [replChar]
      | b1 :: r1 =>
        if 0x80 ≤ b1 ∧ b1 < 0xC0 then
          ((b - 0xC0) * 0x40 + (b1 - 0x80)) :: utf8DecodeRepl r1
        else replChar :: utf8DecodeRepl (b1 :: r1)
    else if b < 0xF0 then
      match rest with
      | [] => [replChar]
      | b1 :: r1 =>
        if (if b = 0xE0 then 0xA0 else 0x80) ≤ b1 ∧ b1 < (if b = 0xED then 0xA0 else 0xC0) then
          match r1 with
          | [] => [replChar]
          | b2 :: r2 =>
            if 0x80 ≤ b2 ∧ b2 < 0xC0 then
              ((b - 0xE0) * 0x1000 + (b1 - 0x80) * 0x40 + (b2 - 0x80)) :: utf8DecodeRepl r2
            else replChar :: utf8DecodeRepl (b2 :: r2)
        else replChar :: utf8DecodeRepl (b1 :: r1)
    else if b < 0xF5 then
      match rest with
      | [] => [replChar]
      | b1 :: r1 =>
        if (if b = 0xF0 then 0x90 else 0x80) ≤ b1 ∧ b1 < (if b = 0xF4 then 0x90 else 0xC0) then
          match r1 with
          | [] => [replChar]
          | b2 :: r2 =>
            if 0x80 ≤ b2 ∧ b2 < 0xC0 then
              match r2 with
              | [] => [replChar]
              | b3 :: r3 =>
                if 0x80 ≤ b3 ∧ b3 < 0xC0 then
                  ((b - 0xF0) * 0x40000 + (b1 - 0x80) * 0x1000 +
                      (b2 - 0x80) * 0x40 + (b3 - 0x80)) :: utf8DecodeRepl r3
                else replChar :: utf8DecodeRepl (b3 :: r3)
            else replChar :: utf8DecodeRepl (b2 :: r2)
        else replChar :: utf8DecodeRepl (b1 :: r1)
    else replChar :: utf8DecodeRepl rest

/-- A decoded metadata value as printed by the raw reader's dispatch on
the value-type tag (`inspect_architecture.py`, lines 123-134). -/
inductive GGUFValue where
  /-- Tag 8: decoded code points of the string, with U+FFFD substituted
  for invalid subsequences. -/
  | vstr (cs : List Nat)
  /-- Tags 4, 5 (4 bytes) and 10, 11 (8 bytes): the unsigned
  little-endian integer produced by `struct.unpack` with `<I` / `<Q`. -/
  | vnum (n : Nat)
  /-- Tag 6: the 32-bit float produced by `struct.unpack "<f"`,
  represented by its 4-byte little-endian bit pattern. -/
  | vf32 (bits : Nat)
  /-- Tag 7: the boolean produced by `struct.unpack "?"` (nonzero byte
  decodes to true). -/
  | vbool (b : Bool)
deriving DecidableEq

/-- One observable event of the raw reader's metadata loop
(`inspect_architecture.py`, lines 99-153). -/
inductive RawItem where
  /-- A `print(f"{key}: {value}")` of a decoded (key, value) pair;
  the key is its decoded code points. -/
  | pair (key : List Nat) (v : GGUFValue)
  /-- Tag 9: the `[Array of N items, type T]` placeholder line, after
  which the loop breaks without skipping the payload (lines 135-142). -/
  | arrayStop (key : List Nat) (elemType : Nat) (count : Nat)
  /-- Unknown tag: the `[Unknown Type T]` line, after which the loop
  breaks (lines 143-147). -/
  | unknownStop (key : List Nat) (valType : Nat)
  /-- An exception inside one entry, caught at lines 151-153: the
  `Error parsing KV pair` diagnostic, after which the loop breaks. -/
  | errStop
deriving DecidableEq

/-- Reading one key (`inspect_architecture.py`, lines 102-103):
an 8-byte length, then that many bytes (possibly fewer at end of file)
decoded as strict UTF-8. `none` models the raised exception (short
`struct.unpack` read, or UnicodeDecodeError on the key). -/
def readKey (s : ByteStream) : Option (List Nat × ByteStream) :=
  match readExact s 8 with
  | none => none
  | some (lenB, s1) =>
    let r := streamRead s1 (leDecode lenB)
    match utf8Decode r.1 with
    | none => none
    | some cs => some (cs, r.2)

/-- The `for _ in range(kv_count)` loop of `inspect_gguf_raw`
(lines 99-153), as the list of emitted items. Each iteration reads a
key, a 4-byte type tag, and dispatches on the tag; exceptions inside an
entry are caught and end the loop with an `errStop` item. -/
def parseKVLoop : Nat → ByteStream → List RawItem
  | 0, _ => []
  | n + 1, s =>
    match readKey s with
    | none => [.errStop]
    | some (key, s2) =>
      match readExact s2 4 with
      | none => [.errStop]
      | some (tB, s3) =>
        let t := leDecode tB
        if t = 8 then
          match readExact s3 8 with
          | none => [.errStop]
          | some (slB, s4) =>
            let r := streamRead s4 (leDecode slB)
            .pair key (.vstr (utf8DecodeRepl r.1)) :: parseKVLoop n r.2
        else if t = 4 ∨ t = 5 then
          match readExact s3 4 with
          | none => [.errStop]
          | some (vB, s4) => .pair key (.vnum (leDecode vB)) :: parseKVLoop n s4
        else if t = 10 ∨ t = 11 then
          match readExact s3 8 with
          | none => [.errStop]
          | some (vB, s4) => .pair key (.vnum (leDecode vB)) :: parseKVLoop n s4
        else if t = 6 then
          match readExact s3 4 with
          | none => [.errStop]
          | some (vB, s4) => .pair key (.vf32 (leDecode vB)) :: parseKVLoop n s4
        else if t = 7 then
          match readExact s3 1 with
          | none => [.errStop]
          | some (vB, s4) => .pair key (.vbool (leDecode vB ≠ 0)) :: parseKVLoop n s4
        else if t = 9 then
          match readExact s3 4 with
          | none => [.errStop]
          | some (atB, s4) =>
            match readExact s4 8 with
            | none => [.errStop]
            | some (alB, _) => [.arrayStop key (leDecode atB) (leDecode alB)]
        else [.unknownStop key t]

/-- The required magic literal `b"GGUF"`. -/
def ggufMagic : List Nat := [0x47, 0x47, 0x55, 0x46]

/-- Outcome of `inspect_gguf_raw` (lines 79-153). -/
inductive RawResult where
  /-- `magic != b"GGUF"`: the `Not a GGUF file (bad magic)` message,
  then return, before any further read. -/
  | badMagic
  /-- `struct.error` while unpacking version / tensor count / kv count:
  these reads are outside the per-entry `try`, so the exception escapes
  `inspect_gguf_raw` (its caller catches it, lines 44-46). -/
  | headerError
  /-- Header parsed; the version, tensor-count and kv-count fields, and
  the items emitted by the metadata loop. -/
  | ok (version tensorCount kvCount : Nat) (items : List RawItem)
deriving DecidableEq

/-- The raw fallback parser `inspect_gguf_raw` (lines 79-153), reading
the header then running the metadata loop. -/
def inspect_gguf_raw (s : ByteStream) : RawResult :=
  let r := streamRead s 4
  if r.1 = ggufMagic then
    match readExact r.2 4 with
    | none => .headerError
    | some (vB, s2) =>
      match readExact s2 8 with
      | none => .headerError
      | some (tB, s3) =>
        match readExact s3 8 with
        | none => .headerError
        | some (kB, s4) =>
          .ok (leDecode vB) (leDecode tB) (leDecode kB)
            (parseKVLoop (leDecode kB) s4)
  else .badMagic

/-! ## Model of `inspect_gguf` and of the `__main__` entry point

The richer reader `gguf.GGUFReader` is an external library (out of scope
per the spec); only its observable outcomes matter to the wrapper's
control flow, so it is abstracted as a `GGUFLibOutcome`.  Per the `gguf`
library contract, `reader.get_field key` returns the field or `None`
when the key is absent; a field exposes `parts`, a list of byte
arrays. -/

/-- Abstract outcome of constructing `gguf.GGUFReader(model_path)`
(line 21), together with — on success — the `parts` of the
`general.architecture` field that line 55 then accesses (`none` when
`get_field` returns Python `None`). -/
inductive GGUFLibOutcome where
  /-- `ValueError` whose text mentions `not a valid GGMLQuantizationType`
  (handled at lines 22-46 by falling back to the raw parser). -/
  | quantTypeValueError
  /-- Any other `ValueError` (handled at lines 47-49). -/
  | otherValueError
  /-- Any other exception (handled at lines 50-52). -/
  | otherException
  /-- Construction succeeded; `archParts` models
  `reader.get_field("general.architecture")`: `none` for a missing
  field, otherwise the field's `parts` byte arrays. -/
  | success (archParts : Option (List (List Nat)))
deriving DecidableEq

/-- Observable outcome of one call to `inspect_gguf`. -/
inductive ProgOutcome where
  /-- The function returned normally (every failure is printed, not
  raised); when the raw fallback ran, its result is recorded. -/
  | gracefulReturn (raw : Option RawResult)
  /-- An exception escaped `inspect_gguf` unhandled. -/
  | unhandledException
deriving DecidableEq

/-- `inspect_gguf` (lines 5-75).  On the quantization-type `ValueError`
it falls back to `inspect_gguf_raw` inside a `try` whose `except`
(lines 44-46) also catches the raw reader's own header exception, and
returns.  Other construction failures print and return.  On success,
line 55 evaluates
`reader.get_field("general.architecture").parts[-1].tobytes().decode("utf-8")`
outside any `try`: a missing field (`None.parts`, AttributeError), empty
`parts` (IndexError) or invalid UTF-8 (UnicodeDecodeError) escapes
unhandled.  The subsequent guarded block-count lookup (lines 58-63) and
the bounded metadata/tensor listings are abstracted as non-raising. -/
def inspect_gguf (lib : GGUFLibOutcome) (s : ByteStream) : ProgOutcome :=
  match lib with
  | .quantTypeValueError => .gracefulReturn (some (inspect_gguf_raw s))
  | .otherValueError => .gracefulReturn none
  | .otherException => .gracefulReturn none
  | .success archParts =>
    match archParts with
    | none => .unhandledException
    | some parts =>
      match parts.getLast? with
      | none => .unhandledException
      | some bs =>
        match utf8Decode bs with
        | none => .unhandledException
        | some _ => .gracefulReturn none

/-- Observable outcome of the `__main__` block (lines 155-173). -/
inductive MainOutcome where
  /-- `os.path.exists(target_path)` was false: the `File not found`
  message is printed and `inspect_gguf` is never entered (lines 171-173). -/
  | reportedNotFound
  /-- The path exists: `inspect_gguf(target_path)` runs (line 170). -/
  | inspected (o : ProgOutcome)
deriving DecidableEq

/-- The `__main__` entry point (lines 155-173): a pre-check with
`os.path.exists` guards the only call into `inspect_gguf`.
`pathExists` models the result of that check; `lib` and `s` are the
library outcome and file bytes that `inspect_gguf` would see. -/
def mainProgram (pathExists : Bool) (lib : GGUFLibOutcome) (s : ByteStream) : MainOutcome :=
  if pathExists then .inspected (inspect_gguf lib s) else .reportedNotFound

/-! ## Spec-side encoders (the documented GGUF wire layout)

These are written from the spec's description of the layout (§3, §4.1,
§6 of `spec.md`): little-endian throughout, 8-byte length-prefixed
strings, 4-byte type tags.  They exist to state round-trip and
refinement claims against the parser above. -/

/-- A Unicode scalar value: a code point outside the surrogate range. -/
def ScalarCP (c : Nat) : Prop := c < 0x110000 ∧ ¬(0xD800 ≤ c ∧ c ≤ 0xDFFF)

instance (c : Nat) : Decidable (ScalarCP c) := by
  unfold ScalarCP; infer_instance

/-- Standard UTF-8 encoding of one Unicode scalar value. -/
def utf8EncodeChar (c : Nat) : List Nat :=
  if c < 0x80 then [c]
  else if c < 0x800 then [0xC0 + c / 0x40, 0x80 + c % 0x40]
  else if c < 0x10000 then
    [0xE0 + c / 0x1000, 0x80 + (c / 0x40) % 0x40, 0x80 + c % 0x40]
  else
    [0xF0 + c / 0x40000, 0x80 + (c / 0x1000) % 0x40, 0x80 + (c / 0x40) % 0x40,
      0x80 + c % 0x40]

/-- Standard UTF-8 encoding of a sequence of code points. -/
def utf8Encode (cs : List Nat) : List Nat := cs.flatMap utf8EncodeChar

/-- One metadata entry as laid out on the wire: a key (as code points),
a value-type tag, and the raw payload bytes of the value (for tag 8 the
string bytes, without their length prefix). -/
structure Entry where
  key : List Nat
  tag : Nat
  payload : List Nat
deriving DecidableEq

/-- Wire encoding of one metadata entry per the documented layout:
8-byte key length, key bytes, 4-byte tag, then the value (tag 8 adds an
8-byte byte-length prefix to its payload). -/
def encodeEntry (e : Entry) : List Nat :=
  encodeU64 (utf8Encode e.key).length ++ utf8Encode e.key ++ encodeU32 e.tag ++
    (if e.tag = 8 then encodeU64 e.payload.length ++ e.payload else e.payload)

/-- Wire encoding of the GGUF header followed by a sequence of entries:
magic, u32 version, u64 tensor count, u64 kv count, then the entries. -/
def encodeFile (version tensorCount kvCount : Nat) (entries : List Entry) : List Nat :=
  ggufMagic ++ encodeU32 version ++ encodeU64 tensorCount ++ encodeU64 kvCount ++
    entries.flatMap encodeEntry

/-- The scalar value-type tags the raw reader fully decodes. -/
def scalarTag (t : Nat) : Prop :=
  t = 4 ∨ t = 5 ∨ t = 6 ∨ t = 7 ∨ t = 8 ∨ t = 10 ∨ t = 11

instance (t : Nat) : Decidable (scalarTag t) := by
  unfold scalarTag; infer_instance

/-- Well-formedness of a scalar entry: decodable key, tag in range and
scalar, and a payload of exactly the width the tag declares (any byte
count below `2^64` for strings). -/
def wfEntry (e : Entry) : Prop :=
  (∀ c ∈ e.key, ScalarCP c) ∧ (utf8Encode e.key).length < 2 ^ 64 ∧
    e.tag < 2 ^ 32 ∧ scalarTag e.tag ∧
    (if e.tag = 8 then e.payload.length < 2 ^ 64
     else if e.tag = 4 ∨ e.tag = 5 ∨ e.tag = 6 then e.payload.length = 4
     else if e.tag = 7 then e.payload.length = 1
     else e.payload.length = 8)

/-- The byte-exact decode of an entry's payload under its declared type,
written from the spec's dispatch table (§4.1 step 3c). -/
def expectedValue (e : Entry) : GGUFValue :=
  if e.tag = 8 then .vstr (utf8DecodeRepl e.payload)
  else if e.tag = 6 then .vf32 (leDecode e.payload)
  else if e.tag = 7 then .vbool (leDecode e.payload ≠ 0)
  else .vnum (leDecode e.payload)

/-- Wire encoding of the start of an array-typed entry (tag 9): key,
tag, 4-byte element type, 8-byte element count.  The element payload is
deliberately not part of this encoding: the parser never reads it. -/
def encodeArrayEntry (key : List Nat) (elemType count : Nat) : List Nat :=
  encodeU64 (utf8Encode key).length ++ utf8Encode key ++ encodeU32 9 ++
    encodeU32 elemType ++ encodeU64 count

/-- Wire encoding of the start of an entry with an arbitrary (possibly
unsupported) tag: key then 4-byte tag.  For an unsupported tag the
parser reads nothing further. -/
def encodeTaggedKey (key : List Nat) (t : Nat) : List Nat :=
  encodeU64 (utf8Encode key).length ++ utf8Encode key ++ encodeU32 t

/-- Two's-complement little-endian encoding of a signed integer into `w`
bytes: the documented layout of the signed GGUF scalar types. -/
def encodeSigned (w : Nat) (i : Int) : List Nat :=
  leEncode w (i % ((2 : Int) ^ (8 * w))).toNat

/-- A typed scalar metadata value, as the round-trip property quantifies
over it: one constructor per scalar GGUF value type. -/
inductive ScalarVal where
  | u32 (n : Nat)
  | i32 (i : Int)
  | f32 (bits : Nat)
  | boolv (b : Bool)
  | strv (cs : List Nat)
  | u64 (n : Nat)
  | i64 (i : Int)
deriving DecidableEq

/-- The GGUF value-type tag of each scalar value. -/
def tagOf : ScalarVal → Nat
  | .u32 _ => 4
  | .i32 _ => 5
  | .f32 _ => 6
  | .boolv _ => 7
  | .strv _ => 8
  | .u64 _ => 10
  | .i64 _ => 11

/-- The documented wire bytes of each scalar value (without the tag-8
length prefix, which `encodeEntry` adds). -/
def valueBytes : ScalarVal → List Nat
  | .u32 n => leEncode 4 n
  | .i32 i => encodeSigned 4 i
  | .f32 bits => leEncode 4 bits
  | .boolv b => [if b then 1 else 0]
  | .strv cs => utf8Encode cs
  | .u64 n => leEncode 8 n
  | .i64 i => encodeSigned 8 i

/-- Range constraints making a scalar value representable in its type. -/
def wfScalarVal : ScalarVal → Prop
  | .u32 n => n < 2 ^ 32
  | .i32 i => -(2 ^ 31) ≤ i ∧ i < 2 ^ 31
  | .f32 bits => bits < 2 ^ 32
  | .boolv _ => True
  | .strv cs => (∀ c ∈ cs, ScalarCP c) ∧ (utf8Encode cs).length < 2 ^ 64
  | .u64 n => n < 2 ^ 64
  | .i64 i => -(2 ^ 63) ≤ i ∧ i < 2 ^ 63

/-- What the raw reader actually prints for each encoded scalar value:
unsigned types, floats (as bit patterns), booleans and valid-UTF-8
strings come back exactly; the signed types come back as the unsigned
reinterpretation of their two's-complement bytes. -/
def decodedScalar : ScalarVal → GGUFValue
  | .u32 n => .vnum n
  | .i32 i => .vnum (i % ((2 : Int) ^ 32)).toNat
  | .f32 bits => .vf32 bits
  | .boolv b => .vbool b
  | .strv cs => .vstr cs
  | .u64 n => .vnum n
  | .i64 i => .vnum (i % ((2 : Int) ^ 64)).toNat

/-- The entry a scalar value yields on the wire. -/
def scalarEntry (key : List Nat) (v : ScalarVal) : Entry :=
  ⟨key, tagOf v, valueBytes v⟩

/-! ## Lemmas: fixed-width little-endian codec -/

theorem leEncode_length (w n : Nat) : (leEncode w n).length = w := by
  induction w generalizing n with
  | zero => rfl
  | succ w ih => simp [leEncode, ih]

theorem leDecode_leEncode (w n : Nat) (h : n < 256 ^ w) :
    leDecode (leEncode w n) = n := by
  induction w generalizing n with
  | zero =>
    have : n = 0 := by simpa using h
    simp [this, leEncode, leDecode]
  | succ w ih =>
    have h2 : n / 256 < 256 ^ w := by
      rw [Nat.div_lt_iff_lt_mul (by norm_num)]
      calc n < 256 ^ (w + 1) := h
        _ = 256 ^ w * 256 := by ring
    simp only [leEncode, leDecode, ih _ h2]
    omega

theorem leDecode_encodeU32 (n : Nat) (h : n < 2 ^ 32) :
    leDecode (encodeU32 n) = n := by
  apply leDecode_leEncode
  calc n < 2 ^ 32 := h
    _ = 256 ^ 4 := by norm_num

theorem leDecode_encodeU64 (n : Nat) (h : n < 2 ^ 64) :
    leDecode (encodeU64 n) = n := by
  apply leDecode_leEncode
  calc n < 2 ^ 64 := h
    _ = 256 ^ 8 := by norm_num

theorem encodeU32_length (n : Nat) : (encodeU32 n).length = 4 :=
  leEncode_length 4 n

theorem encodeU64_length (n : Nat) : (encodeU64 n).length = 8 :=
  leEncode_length 8 n

/-! ## Lemmas: stream reads -/

theorem readExact_append (xs ys : List Nat) (n : Nat) (h : xs.length = n) :
    readExact (xs ++ ys) n = some (xs, ys) := by
  unfold readExact
  rw [if_pos (by simp [← h]), List.take_left' h, List.drop_left' h]

theorem streamRead_append (xs ys : List Nat) (n : Nat) (h : xs.length = n) :
    streamRead (xs ++ ys) n = (xs, ys) := by
  unfold streamRead
  rw [List.take_left' h, List.drop_left' h]

theorem streamRead_short (xs : List Nat) (n : Nat) (h : xs.length ≤ n) :
    streamRead xs n = (xs, []) := by
  unfold streamRead
  rw [List.take_of_length_le h, List.drop_of_length_le h]

/-! ## Lemmas: UTF-8 round trip -/

theorem utf8Decode_encodeChar (c : Nat) (hc : ScalarCP c) (t : List Nat) :
    utf8Decode (utf8EncodeChar c ++ t) = (utf8Decode t).map (fun cs => c :: cs) := by
  obtain ⟨h1, h2⟩ := hc
  rw [utf8EncodeChar]
  split_ifs with ha hb hd
  · simp only [List.cons_append, List.nil_append]
    rw [utf8Decode.eq_def]
    simp only [if_pos ha]
  · have e1 : ¬(0xC0 + c / 0x40 < 0x80) := by omega
    have e2 : ¬(0xC0 + c / 0x40 < 0xC2) := by omega
    have e3 : 0xC0 + c / 0x40 < 0xE0 := by omega
    have e4 : 0x80 ≤ 0x80 + c % 0x40 ∧ 0x80 + c % 0x40 < 0xC0 := by omega
    have ev : (0xC0 + c / 0x40 - 0xC0) * 0x40 + (0x80 + c % 0x40 - 0x80) = c := by omega
    simp only [List.cons_append, List.nil_append]
    rw [utf8Decode.eq_def]
    simp only [if_neg e1, if_neg e2, if_pos e3, if_pos e4, ev]
  · have e1 : ¬(0xE0 + c / 0x1000 < 0x80) := by omega
    have e2 : ¬(0xE0 + c / 0x1000 < 0xC2) := by omega
    have e3 : ¬(0xE0 + c / 0x1000 < 0xE0) := by omega
    have e3' : 0xE0 + c / 0x1000 < 0xF0 := by omega
    have e4 : (if 0xE0 + c / 0x1000 = 0xE0 then 0xA0 else 0x80) ≤ 0x80 + c / 0x40 % 0x40 ∧
        0x80 + c / 0x40 % 0x40 < (if 0xE0 + c / 0x1000 = 0xED then 0xA0 else 0xC0) := by
      constructor <;> split_ifs <;> omega
    have e5 : 0x80 ≤ 0x80 + c % 0x40 ∧ 0x80 + c % 0x40 < 0xC0 := by omega
    have ev : (0xE0 + c / 0x1000 - 0xE0) * 0x1000 + (0x80 + c / 0x40 % 0x40 - 0x80) * 0x40 +
        (0x80 + c % 0x40 - 0x80) = c := by omega
    simp only [List.cons_append, List.nil_append]
    rw [utf8Decode.eq_def]
    simp only [if_neg e1, if_neg e2, if_neg e3, if_pos e3', if_pos e4, if_pos e5, ev]
  · have e1 : ¬(0xF0 + c / 0x40000 < 0x80) := by omega
    have e2 : ¬(0xF0 + c / 0x40000 < 0xC2) := by omega
    have e3 : ¬(0xF0 + c / 0x40000 < 0xE0) := by omega
    have e4 : ¬(0xF0 + c / 0x40000 < 0xF0) := by omega
    have e5 : 0xF0 + c / 0x40000 < 0xF5 := by omega
    have e6 : (if 0xF0 + c / 0x40000 = 0xF0 then 0x90 else 0x80) ≤ 0x80 + c / 0x1000 % 0x40 ∧
        0x80 + c / 0x1000 % 0x40 < (if 0xF0 + c / 0x40000 = 0xF4 then 0x90 else 0xC0) := by
      constructor <;> split_ifs <;> omega
    have e7 : 0x80 ≤ 0x80 + c / 0x40 % 0x40 ∧ 0x80 + c / 0x40 % 0x40 < 0xC0 := by omega
    have e8 : 0x80 ≤ 0x80 + c % 0x40 ∧ 0x80 + c % 0x40 < 0xC0 := by omega
    have ev : (0xF0 + c / 0x40000 - 0xF0) * 0x40000 + (0x80 + c / 0x1000 % 0x40 - 0x80) * 0x1000 +
        (0x80 + c / 0x40 % 0x40 - 0x80) * 0x40 + (0x80 + c % 0x40 - 0x80) = c := by omega
    simp only [List.cons_append, List.nil_append]
    rw [utf8Decode.eq_def]
    simp only [if_neg e1, if_neg e2, if_neg e3, if_neg e4, if_pos e5, if_pos e6, if_pos e7,
      if_pos e8, ev]

theorem utf8DecodeRepl_encodeChar (c : Nat) (hc : ScalarCP c) (t : List Nat) :
    utf8DecodeRepl (utf8EncodeChar c ++ t) = c :: utf8DecodeRepl t := by
  obtain ⟨h1, h2⟩ := hc
  rw [utf8EncodeChar]
  split_ifs with ha hb hd
  · simp only [List.cons_append, List.nil_append]
    rw [utf8DecodeRepl.eq_def]
    simp only [if_pos ha]
  · have e1 : ¬(0xC0 + c / 0x40 < 0x80) := by omega
    have e2 : ¬(0xC0 + c / 0x40 < 0xC2) := by omega
    have e3 : 0xC0 + c / 0x40 < 0xE0 := by omega
    have e4 : 0x80 ≤ 0x80 + c % 0x40 ∧ 0x80 + c % 0x40 < 0xC0 := by omega
    have ev : (0xC0 + c / 0x40 - 0xC0) * 0x40 + (0x80 + c % 0x40 - 0x80) = c := by omega
    simp only [List.cons_append, List.nil_append]
    rw [utf8DecodeRepl.eq_def]
    simp only [if_neg e1, if_neg e2, if_pos e3, if_pos e4, ev]
  · have e1 : ¬(0xE0 + c / 0x1000 < 0x80) := by omega
    have e2 : ¬(0xE0 + c / 0x1000 < 0xC2) := by omega
    have e3 : ¬(0xE0 + c / 0x1000 < 0xE0) := by omega
    have e3' : 0xE0 + c / 0x1000 < 0xF0 := by omega
    have e4 : (if 0xE0 + c / 0x1000 = 0xE0 then 0xA0 else 0x80) ≤ 0x80 + c / 0x40 % 0x40 ∧
        0x80 + c / 0x40 % 0x40 < (if 0xE0 + c / 0x1000 = 0xED then 0xA0 else 0xC0) := by
      constructor <;> split_ifs <;> omega
    have e5 : 0x80 ≤ 0x80 + c % 0x40 ∧ 0x80 + c % 0x40 < 0xC0 := by omega
    have ev : (0xE0 + c / 0x1000 - 0xE0) * 0x1000 + (0x80 + c / 0x40 % 0x40 - 0x80) * 0x40 +
        (0x80 + c % 0x40 - 0x80) = c := by omega
    simp only [List.cons_append, List.nil_append]
    rw [utf8DecodeRepl.eq_def]
    simp only [if_neg e1, if_neg e2, if_neg e3, if_pos e3', if_pos e4, if_pos e5, ev]
  · have e1 : ¬(0xF0 + c / 0x40000 < 0x80) := by omega
    have e2 : ¬(0xF0 + c / 0x40000 < 0xC2) := by omega
    have e3 : ¬(0xF0 + c / 0x40000 < 0xE0) := by omega
    have e4 : ¬(0xF0 + c / 0x40000 < 0xF0) := by omega
    have e5 : 0xF0 + c / 0x40000 < 0xF5 := by omega
    have e6 : (if 0xF0 + c / 0x40000 = 0xF0 then 0x90 else 0x80) ≤ 0x80 + c / 0x1000 % 0x40 ∧
        0x80 + c / 0x1000 % 0x40 < (if 0xF0 + c / 0x40000 = 0xF4 then 0x90 else 0xC0) := by
      constructor <;> split_ifs <;> omega
    have e7 : 0x80 ≤ 0x80 + c / 0x40 % 0x40 ∧ 0x80 + c / 0x40 % 0x40 < 0xC0 := by omega
    have e8 : 0x80 ≤ 0x80 + c % 0x40 ∧ 0x80 + c % 0x40 < 0xC0 := by omega
    have ev : (0xF0 + c / 0x40000 - 0xF0) * 0x40000 + (0x80 + c / 0x1000 % 0x40 - 0x80) * 0x1000 +
        (0x80 + c / 0x40 % 0x40 - 0x80) * 0x40 + (0x80 + c % 0x40 - 0x80) = c := by omega
    simp only [List.cons_append, List.nil_append]
    rw [utf8DecodeRepl.eq_def]
    simp only [if_neg e1, if_neg e2, if_neg e3, if_neg e4, if_pos e5, if_pos e6, if_pos e7,
      if_pos e8, ev]

theorem utf8Decode_utf8Encode (cs : List Nat) (h : ∀ c ∈ cs, ScalarCP c) :
    utf8Decode (utf8Encode cs) = some cs := by
  induction cs with
  | nil => rfl
  | cons c cs ih =>
    rw [utf8Encode, List.flatMap_cons]
    rw [utf8Decode_encodeChar c (h c (by simp)) _]
    rw [show cs.flatMap utf8EncodeChar = utf8Encode cs from rfl]
    rw [ih (fun x hx => h x (by simp [hx]))]
    rfl

theorem utf8DecodeRepl_utf8Encode (cs : List Nat) (h : ∀ c ∈ cs, ScalarCP c) :
    utf8DecodeRepl (utf8Encode cs) = cs := by
  induction cs with
  | nil => rfl
  | cons c cs ih =>
    rw [utf8Encode, List.flatMap_cons]
    rw [utf8DecodeRepl_encodeChar c (h c (by simp)) _]
    rw [show cs.flatMap utf8EncodeChar = utf8Encode cs from rfl]
    rw [ih (fun x hx => h x (by simp [hx]))]

/-- Invalid byte sequences really are replaced: whenever the strict
decoder rejects, the lenient decoder's output contains U+FFFD. -/
theorem replChar_mem_of_invalid (bs : List Nat) (h : utf8Decode bs = none) :
    replChar ∈ utf8DecodeRepl bs := by
  induction bs using utf8DecodeRepl.induct
  all_goals try exact Option.noConfusion h
  all_goals
    rw [utf8Decode.eq_def] at h
    rw [utf8DecodeRepl.eq_def]
    simp only [] at h ⊢
    split_ifs at h ⊢
    all_goals simp_all

/-! ## Lemmas: the metadata loop on encoded entries -/

theorem readKey_encoded (key : List Nat) (rest : ByteStream)
    (h1 : ∀ c ∈ key, ScalarCP c) (h2 : (utf8Encode key).length < 2 ^ 64) :
    readKey (encodeU64 (utf8Encode key).length ++ (utf8Encode key ++ rest)) =
      some (key, rest) := by
  have hd : leDecode (encodeU64 (utf8Encode key).length) = (utf8Encode key).length :=
    leDecode_encodeU64 _ h2
  simp only [readKey, readExact_append _ _ 8 (encodeU64_length _), hd,
    streamRead_append _ _ _ rfl, utf8Decode_utf8Encode key h1]

/-- One iteration of the metadata loop on a well-formed scalar entry:
the decoded pair is emitted and the loop continues on the rest of the
stream. -/
theorem parseKVLoop_scalar_step (e : Entry) (n : Nat) (rest : ByteStream) (hw : wfEntry e) :
    parseKVLoop (n + 1) (encodeEntry e ++ rest) =
      .pair e.key (expectedValue e) :: parseKVLoop n rest := by
  obtain ⟨hk, hkl, ht, hs, hp⟩ := hw
  have htag : leDecode (encodeU32 e.tag) = e.tag := leDecode_encodeU32 _ ht
  rcases hs with h | h | h | h | h | h | h
  · -- tag 4 (u32)
    have hp4 : e.payload.length = 4 := by simpa [h] using hp
    rw [h] at htag
    have hv : expectedValue e = .vnum (leDecode e.payload) := by simp [expectedValue, h]
    rw [encodeEntry, h, hv, if_neg (by norm_num : ¬(4 : Nat) = 8)]
    rw [parseKVLoop.eq_def]
    simp only [List.append_assoc, readKey_encoded e.key _ hk hkl,
      readExact_append _ _ 4 (encodeU32_length _), htag, readExact_append _ _ 4 hp4]
    norm_num
  · -- tag 5 (i32, decoded unsigned)
    have hp4 : e.payload.length = 4 := by simpa [h] using hp
    rw [h] at htag
    have hv : expectedValue e = .vnum (leDecode e.payload) := by simp [expectedValue, h]
    rw [encodeEntry, h, hv, if_neg (by norm_num : ¬(5 : Nat) = 8)]
    rw [parseKVLoop.eq_def]
    simp only [List.append_assoc, readKey_encoded e.key _ hk hkl,
      readExact_append _ _ 4 (encodeU32_length _), htag, readExact_append _ _ 4 hp4]
    norm_num
  · -- tag 6 (f32, bit pattern)
    have hp4 : e.payload.length = 4 := by simpa [h] using hp
    rw [h] at htag
    have hv : expectedValue e = .vf32 (leDecode e.payload) := by simp [expectedValue, h]
    rw [encodeEntry, h, hv, if_neg (by norm_num : ¬(6 : Nat) = 8)]
    rw [parseKVLoop.eq_def]
    simp only [List.append_assoc, readKey_encoded e.key _ hk hkl,
      readExact_append _ _ 4 (encodeU32_length _), htag, readExact_append _ _ 4 hp4]
    norm_num
  · -- tag 7 (bool, one byte)
    have hp1 : e.payload.length = 1 := by simpa [h] using hp
    rw [h] at htag
    have hv : expectedValue e = .vbool (leDecode e.payload ≠ 0) := by simp [expectedValue, h]
    rw [encodeEntry, h, hv, if_neg (by norm_num : ¬(7 : Nat) = 8)]
    rw [parseKVLoop.eq_def]
    simp only [List.append_assoc, readKey_encoded e.key _ hk hkl,
      readExact_append _ _ 4 (encodeU32_length _), htag, readExact_append _ _ 1 hp1]
    norm_num
  · -- tag 8 (string, length-prefixed)
    have hp8 : e.payload.length < 2 ^ 64 := by simpa [h] using hp
    have hpl : leDecode (encodeU64 e.payload.length) = e.payload.length :=
      leDecode_encodeU64 _ hp8
    rw [h] at htag
    have hv : expectedValue e = .vstr (utf8DecodeRepl e.payload) := by simp [expectedValue, h]
    rw [encodeEntry, h, hv, if_pos rfl]
    rw [parseKVLoop.eq_def]
    simp only [List.append_assoc, readKey_encoded e.key _ hk hkl,
      readExact_append _ _ 4 (encodeU32_length _), htag,
      readExact_append _ _ 8 (encodeU64_length _), hpl, streamRead_append _ _ _ rfl]
    norm_num
  · -- tag 10 (u64)
    have hp8 : e.payload.length = 8 := by simpa [h] using hp
    rw [h] at htag
    have hv : expectedValue e = .vnum (leDecode e.payload) := by simp [expectedValue, h]
    rw [encodeEntry, h, hv, if_neg (by norm_num : ¬(10 : Nat) = 8)]
    rw [parseKVLoop.eq_def]
    simp only [List.append_assoc, readKey_encoded e.key _ hk hkl,
      readExact_append _ _ 4 (encodeU32_length _), htag, readExact_append _ _ 8 hp8]
    norm_num
  · -- tag 11 (i64, decoded unsigned, last case)
    have hp8 : e.payload.length = 8 := by simpa [h] using hp
    rw [h] at htag
    have hv : expectedValue e = .vnum (leDecode e.payload) := by simp [expectedValue, h]
    rw [encodeEntry, h, hv, if_neg (by norm_num : ¬(11 : Nat) = 8)]
    rw [parseKVLoop.eq_def]
    simp only [List.append_assoc, readKey_encoded e.key _ hk hkl,
      readExact_append _ _ 4 (encodeU32_length _), htag, readExact_append _ _ 8 hp8]
    norm_num

/-- Running the loop over a block of well-formed scalar entries emits
their pairs in file order and continues on whatever follows. -/
theorem parseKVLoop_scalar_prefix (es : List Entry) (n : Nat) (rest : ByteStream)
    (hw : ∀ e ∈ es, wfEntry e) :
    parseKVLoop (es.length + n) (es.flatMap encodeEntry ++ rest) =
      es.map (fun e => .pair e.key (expectedValue e)) ++ parseKVLoop n rest := by
  induction es with
  | nil => simp
  | cons e es ih =>
    rw [List.flatMap_cons, List.append_assoc,
      show (e :: es).length + n = (es.length + n) + 1 by simp [Nat.add_comm, Nat.add_assoc],
      parseKVLoop_scalar_step e _ _ (hw e (by simp)),
      ih (fun x hx => hw x (by simp [hx])), List.map_cons, List.cons_append]

/-- An array-typed entry (tag 9) ends the loop: the placeholder item is
emitted and nothing after it, whatever bytes follow and however many
iterations remain. -/
theorem parseKVLoop_array_stop (key : List Nat) (elemType count n : Nat) (rest : ByteStream)
    (hk : ∀ c ∈ key, ScalarCP c) (hkl : (utf8Encode key).length < 2 ^ 64)
    (het : elemType < 2 ^ 32) (hcnt : count < 2 ^ 64) :
    parseKVLoop (n + 1) (encodeArrayEntry key elemType count ++ rest) =
      [.arrayStop key elemType count] := by
  rw [encodeArrayEntry, parseKVLoop.eq_def]
  simp only [List.append_assoc, readKey_encoded key _ hk hkl,
    readExact_append _ _ 4 (encodeU32_length _), leDecode_encodeU32 9 (by norm_num),
    leDecode_encodeU32 elemType het,
    readExact_append _ _ 8 (encodeU64_length _), leDecode_encodeU64 count hcnt]
  norm_num

/-- An entry with a tag outside the supported set ends the loop with the
unknown-type item; nothing after the tag is read. -/
theorem parseKVLoop_unknown_stop (key : List Nat) (t n : Nat) (rest : ByteStream)
    (hk : ∀ c ∈ key, ScalarCP c) (hkl : (utf8Encode key).length < 2 ^ 64)
    (ht : t < 2 ^ 32) (hu : ¬scalarTag t) (h9 : t ≠ 9) :
    parseKVLoop (n + 1) (encodeTaggedKey key t ++ rest) = [.unknownStop key t] := by
  rw [scalarTag] at hu
  push_neg at hu
  obtain ⟨u4, u5, u6, u7, u8, u10, u11⟩ := hu
  rw [encodeTaggedKey, parseKVLoop.eq_def]
  simp only [List.append_assoc, readKey_encoded key _ hk hkl,
    readExact_append _ _ 4 (encodeU32_length _), leDecode_encodeU32 t ht]
  rw [if_neg u8, if_neg (by tauto), if_neg (by tauto), if_neg u6, if_neg u7, if_neg h9]

/-- A well-formed header is accepted and its three fields decoded; the
metadata loop then runs on the remaining bytes. -/
theorem inspect_gguf_raw_header (version tensorCount kvCount : Nat) (body : ByteStream)
    (hv : version < 2 ^ 32) (htc : tensorCount < 2 ^ 64) (hkv : kvCount < 2 ^ 64) :
    inspect_gguf_raw (ggufMagic ++ encodeU32 version ++ encodeU64 tensorCount ++
        encodeU64 kvCount ++ body) =
      .ok version tensorCount kvCount (parseKVLoop kvCount body) := by
  simp only [inspect_gguf_raw, streamRead, List.append_assoc,
    List.take_left' (show ggufMagic.length = 4 from rfl),
    List.drop_left' (show ggufMagic.length = 4 from rfl),
    if_pos rfl,
    readExact_append _ _ 4 (encodeU32_length _), leDecode_encodeU32 _ hv,
    readExact_append _ _ 8 (encodeU64_length _), leDecode_encodeU64 _ htc,
    leDecode_encodeU64 _ hkv, if_true]

/-! ## Claim theorems -/

/-- **C1**: for a well-formed stream whose header declares `N` key/value
entries, all of scalar types (tags 4, 5, 6, 7, 8, 10, 11), the raw
metadata parser emits exactly `N` (key, value) pairs, in stream order,
each value being the byte-exact little-endian decode of its declared
type (`expectedValue`). -/
theorem c1_scalar_stream_emits_all_pairs (version tensorCount : Nat) (entries : List Entry)
    (hv : version < 2 ^ 32) (htc : tensorCount < 2 ^ 64) (hn : entries.length < 2 ^ 64)
    (hw : ∀ e ∈ entries, wfEntry e) :
    inspect_gguf_raw (encodeFile version tensorCount entries.length entries) =
      .ok version tensorCount entries.length
        (entries.map (fun e => .pair e.key (expectedValue e))) := by
  have h2 := parseKVLoop_scalar_prefix entries 0 [] hw
  simp only [List.append_nil, Nat.add_zero,
    show parseKVLoop 0 [] = ([] : List RawItem) from rfl] at h2
  rw [encodeFile, inspect_gguf_raw_header _ _ _ _ hv htc hn, h2]

/-- Witness for C1: a one-entry file with a u32 value decodes to its one
pair. -/
theorem c1_witness :
    inspect_gguf_raw (encodeFile 3 7 1 [⟨[107], 4, [1, 0, 0, 0]⟩]) =
      .ok 3 7 1 [.pair [107] (.vnum 1)] := by
  have h := c1_scalar_stream_emits_all_pairs 3 7 [⟨[107], 4, [1, 0, 0, 0]⟩]
    (by norm_num) (by norm_num) (by norm_num)
    (by
      intro e he
      simp only [List.mem_singleton] at he
      subst he
      exact ⟨by decide, by decide, by norm_num, by norm_num [scalarTag], by norm_num⟩)
  simpa [expectedValue, leDecode] using h

/-- **C2** (amended): encoding a (key, type, value) entry with the
documented layout and decoding it with the raw parser reproduces the
value exactly for u32, u64, f32 (bit pattern), bool, and valid-UTF-8
strings; for i32/i64 the parser returns the unsigned (two's-complement)
reinterpretation of the value, which equals the original exactly when
the value is nonnegative. -/
theorem c2_scalar_roundtrip (key : List Nat) (v : ScalarVal) (n : Nat) (rest : ByteStream)
    (hk : ∀ c ∈ key, ScalarCP c) (hkl : (utf8Encode key).length < 2 ^ 64)
    (hv : wfScalarVal v) :
    parseKVLoop (n + 1) (encodeEntry (scalarEntry key v) ++ rest) =
      .pair key (decodedScalar v) :: parseKVLoop n rest ∧
    (∀ i : Int, 0 ≤ i → i < 2 ^ 32 → decodedScalar (.i32 i) = .vnum i.toNat) ∧
    (∀ i : Int, 0 ≤ i → i < 2 ^ 64 → decodedScalar (.i64 i) = .vnum i.toNat) := by
  refine ⟨?_, ?_, ?_⟩
  · have hwe : wfEntry (scalarEntry key v) := by
      cases v with
      | u32 m => exact ⟨hk, hkl, by norm_num [scalarEntry, tagOf],
          by norm_num [scalarTag, scalarEntry, tagOf],
          by norm_num [scalarEntry, tagOf, valueBytes, leEncode_length]⟩
      | i32 i => exact ⟨hk, hkl, by norm_num [scalarEntry, tagOf],
          by norm_num [scalarTag, scalarEntry, tagOf],
          by norm_num [scalarEntry, tagOf, valueBytes, encodeSigned, leEncode_length]⟩
      | f32 m => exact ⟨hk, hkl, by norm_num [scalarEntry, tagOf],
          by norm_num [scalarTag, scalarEntry, tagOf],
          by norm_num [scalarEntry, tagOf, valueBytes, leEncode_length]⟩
      | boolv b => exact ⟨hk, hkl, by norm_num [scalarEntry, tagOf],
          by norm_num [scalarTag, scalarEntry, tagOf],
          by norm_num [scalarEntry, tagOf, valueBytes]⟩
      | strv cs => exact ⟨hk, hkl, by norm_num [scalarEntry, tagOf],
          by norm_num [scalarTag, scalarEntry, tagOf],
          by simpa [scalarEntry, tagOf, valueBytes] using hv.2⟩
      | u64 m => exact ⟨hk, hkl, by norm_num [scalarEntry, tagOf],
          by norm_num [scalarTag, scalarEntry, tagOf],
          by norm_num [scalarEntry, tagOf, valueBytes, leEncode_length]⟩
      | i64 i => exact ⟨hk, hkl, by norm_num [scalarEntry, tagOf],
          by norm_num [scalarTag, scalarEntry, tagOf],
          by norm_num [scalarEntry, tagOf, valueBytes, encodeSigned, leEncode_length]⟩
    have hex : expectedValue (scalarEntry key v) = decodedScalar v := by
      cases v with
      | u32 m =>
        have hm : leDecode (leEncode 4 m) = m :=
          leDecode_leEncode 4 m (by calc m < 2 ^ 32 := hv
            _ = 256 ^ 4 := by norm_num)
        simp [expectedValue, scalarEntry, tagOf, valueBytes, decodedScalar, hm]
      | i32 i =>
        have hm : leDecode (leEncode 4 (i % (2 : Int) ^ (8 * 4)).toNat) =
            (i % (2 : Int) ^ (8 * 4)).toNat := by
          apply leDecode_leEncode
          have h0 : (0 : Int) ≤ i % 2 ^ (8 * 4) := Int.emod_nonneg i (by norm_num)
          have h1 : i % 2 ^ (8 * 4) < 2 ^ (8 * 4) := Int.emod_lt_of_pos i (by norm_num)
          norm_num at h0 h1 ⊢
          omega
        simp only [expectedValue, scalarEntry, tagOf, valueBytes, decodedScalar, encodeSigned, hm]
        norm_num
      | f32 m =>
        have hm : leDecode (leEncode 4 m) = m :=
          leDecode_leEncode 4 m (by calc m < 2 ^ 32 := hv
            _ = 256 ^ 4 := by norm_num)
        simp [expectedValue, scalarEntry, tagOf, valueBytes, decodedScalar, hm]
      | boolv b =>
        cases b <;> simp [expectedValue, scalarEntry, tagOf, valueBytes, decodedScalar, leDecode]
      | strv cs =>
        simp [expectedValue, scalarEntry, tagOf, valueBytes, decodedScalar,
          utf8DecodeRepl_utf8Encode cs hv.1]
      | u64 m =>
        have hm : leDecode (leEncode 8 m) = m :=
          leDecode_leEncode 8 m (by calc m < 2 ^ 64 := hv
            _ = 256 ^ 8 := by norm_num)
        simp [expectedValue, scalarEntry, tagOf, valueBytes, decodedScalar, hm]
      | i64 i =>
        have hm : leDecode (leEncode 8 (i % (2 : Int) ^ (8 * 8)).toNat) =
            (i % (2 : Int) ^ (8 * 8)).toNat := by
          apply leDecode_leEncode
          have h0 : (0 : Int) ≤ i % 2 ^ (8 * 8) := Int.emod_nonneg i (by norm_num)
          have h1 : i % 2 ^ (8 * 8) < 2 ^ (8 * 8) := Int.emod_lt_of_pos i (by norm_num)
          norm_num at h0 h1 ⊢
          omega
        simp only [expectedValue, scalarEntry, tagOf, valueBytes, decodedScalar, encodeSigned, hm]
        norm_num
    rw [parseKVLoop_scalar_step _ _ _ hwe, hex]
    rfl
  · intro i h0 h1
    simp only [decodedScalar]
    norm_num
    omega
  · intro i h0 h1
    simp only [decodedScalar]
    norm_num
    omega

/-- Witness for C2: a u32 round trip at a concrete input. -/
theorem c2_witness :
    parseKVLoop (0 + 1) (encodeEntry (scalarEntry [107] (.u32 5)) ++ []) =
      .pair [107] (decodedScalar (.u32 5)) :: parseKVLoop 0 [] :=
  (c2_scalar_roundtrip [107] (.u32 5) 0 [] (by decide) (by decide) (by norm_num [wfScalarVal])).1

/-- **C2** fails as originally stated: the parser decodes tags 5 and 11
with an unsigned format, so the negative i32 value `-1`, encoded in
two's complement, comes back as `4294967295`, not `-1`. -/
theorem c2_counterexample :
    parseKVLoop 1 (encodeEntry (scalarEntry [107] (.i32 (-1)))) =
      [.pair [107] (.vnum 4294967295)] ∧ (4294967295 : Int) ≠ -1 := by
  constructor
  · decide
  · decide

/-- **C3**: when entry `K = es.length + 1` is the first array-typed
entry (tag 9) and all earlier entries are scalar, the parser emits the
`K - 1` pairs, then the one array placeholder, and nothing more — the
result does not depend on `extra`, the unread array payload and
remaining entries, and holds for any declared count `≥ K`. -/
theorem c3_array_entry_stops_loop (version tensorCount m : Nat) (es : List Entry)
    (key : List Nat) (elemType count : Nat) (extra : ByteStream)
    (hv : version < 2 ^ 32) (htc : tensorCount < 2 ^ 64)
    (hkv : es.length + 1 + m < 2 ^ 64) (hw : ∀ e ∈ es, wfEntry e)
    (hk : ∀ c ∈ key, ScalarCP c) (hkl : (utf8Encode key).length < 2 ^ 64)
    (het : elemType < 2 ^ 32) (hcnt : count < 2 ^ 64) :
    inspect_gguf_raw (ggufMagic ++ encodeU32 version ++ encodeU64 tensorCount ++
        encodeU64 (es.length + 1 + m) ++
        (es.flatMap encodeEntry ++ encodeArrayEntry key elemType count ++ extra)) =
      .ok version tensorCount (es.length + 1 + m)
        (es.map (fun e => .pair e.key (expectedValue e)) ++
          [.arrayStop key elemType count]) := by
  rw [inspect_gguf_raw_header _ _ _ _ hv htc hkv, List.append_assoc,
    show es.length + 1 + m = es.length + (m + 1) by omega,
    parseKVLoop_scalar_prefix es (m + 1) _ hw,
    parseKVLoop_array_stop key elemType count m extra hk hkl het hcnt]

/-- Witness for C3: one u32 entry, then an array entry, then payload
bytes that are never read. -/
theorem c3_witness :
    inspect_gguf_raw (ggufMagic ++ encodeU32 3 ++ encodeU64 0 ++ encodeU64 2 ++
        ([⟨[97], 4, [2, 0, 0, 0]⟩].flatMap encodeEntry ++
          encodeArrayEntry [98] 6 12 ++ [1, 2, 3])) =
      .ok 3 0 2 [.pair [97] (.vnum 2), .arrayStop [98] 6 12] := by
  have h := c3_array_entry_stops_loop 3 0 0 [⟨[97], 4, [2, 0, 0, 0]⟩] [98] 6 12 [1, 2, 3]
    (by norm_num) (by norm_num) (by norm_num)
    (by
      intro e he
      simp only [List.mem_singleton] at he
      subst he
      exact ⟨by decide, by decide, by norm_num, by norm_num [scalarTag], by norm_num⟩)
    (by decide) (by decide) (by norm_num) (by norm_num)
  simpa [expectedValue, leDecode] using h

/-- **C4**: a stream whose first four bytes are not `b"GGUF"` is
rejected as bad magic with zero metadata pairs; and the result of the
parser on such a stream depends only on those first four bytes — the
version, tensor-count and key/value-count fields are never reached. -/
theorem c4_bad_magic :
    (∀ s : ByteStream, s.take 4 ≠ ggufMagic → inspect_gguf_raw s = .badMagic) ∧
    (∀ pre t t' : ByteStream, pre.length = 4 → pre ≠ ggufMagic →
      inspect_gguf_raw (pre ++ t) = inspect_gguf_raw (pre ++ t')) := by
  constructor
  · intro s h
    simp only [inspect_gguf_raw, streamRead]
    rw [if_neg h]
  · intro pre t t' hl h
    simp only [inspect_gguf_raw, streamRead, List.take_left' hl, List.drop_left' hl]
    rw [if_neg h, if_neg h]

/-- Witness for C4: a concrete non-GGUF stream is rejected. -/
theorem c4_witness : inspect_gguf_raw [0, 1, 2, 3, 4, 5] = .badMagic :=
  c4_bad_magic.1 [0, 1, 2, 3, 4, 5] (by decide)

/-- **C5**: an entry with a value-type tag outside the supported set
`{4, 5, 6, 7, 8, 9, 10, 11}` makes the parser report the key with the
unknown tag and stop; the earlier pairs are kept and nothing after the
tag is read (the result does not depend on `extra`). -/
theorem c5_unknown_tag_stops_loop (version tensorCount m : Nat) (es : List Entry)
    (key : List Nat) (t : Nat) (extra : ByteStream)
    (hv : version < 2 ^ 32) (htc : tensorCount < 2 ^ 64)
    (hkv : es.length + 1 + m < 2 ^ 64) (hw : ∀ e ∈ es, wfEntry e)
    (hk : ∀ c ∈ key, ScalarCP c) (hkl : (utf8Encode key).length < 2 ^ 64)
    (ht : t < 2 ^ 32) (hu : ¬scalarTag t) (h9 : t ≠ 9) :
    inspect_gguf_raw (ggufMagic ++ encodeU32 version ++ encodeU64 tensorCount ++
        encodeU64 (es.length + 1 + m) ++
        (es.flatMap encodeEntry ++ encodeTaggedKey key t ++ extra)) =
      .ok version tensorCount (es.length + 1 + m)
        (es.map (fun e => .pair e.key (expectedValue e)) ++ [.unknownStop key t]) := by
  rw [inspect_gguf_raw_header _ _ _ _ hv htc hkv, List.append_assoc,
    show es.length + 1 + m = es.length + (m + 1) by omega,
    parseKVLoop_scalar_prefix es (m + 1) _ hw,
    parseKVLoop_unknown_stop key t m extra hk hkl ht hu h9]

/-- Witness for C5: tag 12 (f64) is not handled, so the walk stops with
the unknown-type report after the first pair. -/
theorem c5_witness :
    inspect_gguf_raw (ggufMagic ++ encodeU32 3 ++ encodeU64 0 ++ encodeU64 2 ++
        ([⟨[97], 4, [2, 0, 0, 0]⟩].flatMap encodeEntry ++
          encodeTaggedKey [98] 12 ++ [9, 9])) =
      .ok 3 0 2 [.pair [97] (.vnum 2), .unknownStop [98] 12] := by
  have h := c5_unknown_tag_stops_loop 3 0 0 [⟨[97], 4, [2, 0, 0, 0]⟩] [98] 12 [9, 9]
    (by norm_num) (by norm_num) (by norm_num)
    (by
      intro e he
      simp only [List.mem_singleton] at he
      subst he
      exact ⟨by decide, by decide, by norm_num, by norm_num [scalarTag], by norm_num⟩)
    (by decide) (by decide) (by norm_num) (by norm_num [scalarTag]) (by norm_num)
  simpa [expectedValue, leDecode] using h

/-- **C6**: a string value (tag 8) whose bytes are not valid UTF-8 is
decoded with U+FFFD substituted rather than raising: the pair is still
emitted and the loop continues with the remaining entries. -/
theorem c6_invalid_string_value_tolerated (key bs : List Nat) (n : Nat) (rest : ByteStream)
    (hk : ∀ c ∈ key, ScalarCP c) (hkl : (utf8Encode key).length < 2 ^ 64)
    (hlen : bs.length < 2 ^ 64) (hinv : utf8Decode bs = none) :
    parseKVLoop (n + 1) (encodeEntry ⟨key, 8, bs⟩ ++ rest) =
      .pair key (.vstr (utf8DecodeRepl bs)) :: parseKVLoop n rest ∧
    replChar ∈ utf8DecodeRepl bs := by
  constructor
  · have hw : wfEntry ⟨key, 8, bs⟩ :=
      ⟨hk, hkl, by norm_num, by norm_num [scalarTag], by simpa⟩
    have h := parseKVLoop_scalar_step ⟨key, 8, bs⟩ n rest hw
    simpa [expectedValue] using h
  · exact replChar_mem_of_invalid bs hinv

/-- Witness for C6: the lone byte `0xFF` is invalid UTF-8; the value
decodes to one U+FFFD and the walk goes on. -/
theorem c6_witness :
    parseKVLoop (0 + 1) (encodeEntry ⟨[107], 8, [0xFF]⟩ ++ []) =
      .pair [107] (.vstr (utf8DecodeRepl [0xFF])) :: parseKVLoop 0 [] ∧
    replChar ∈ utf8DecodeRepl [0xFF] :=
  c6_invalid_string_value_tolerated [107] [0xFF] 0 []
    (by decide) (by decide) (by norm_num) (by decide)

/-- **C7**: an entry whose key bytes are not valid UTF-8 is fatal to the
whole walk: the loop emits only the diagnostic item and stops, whatever
bytes follow and however many entries were still declared — unlike a
malformed string value (C6), which is tolerated. -/
theorem c7_invalid_key_fatal (keyB : List Nat) (n : Nat) (rest : ByteStream)
    (hkl : keyB.length < 2 ^ 64) (hinv : utf8Decode keyB = none) :
    parseKVLoop (n + 1) (encodeU64 keyB.length ++ (keyB ++ rest)) = [.errStop] := by
  rw [parseKVLoop.eq_def]
  simp only [readKey, readExact_append _ _ 8 (encodeU64_length _), leDecode_encodeU64 _ hkl,
    streamRead_append _ _ _ rfl, hinv]

/-- Witness for C7: a key consisting of the invalid byte `0xFF` kills
the walk at once. -/
theorem c7_witness :
    parseKVLoop (1 + 1) (encodeU64 (List.length [0xFF]) ++ ([0xFF] ++ [4, 0, 0, 0])) =
      [.errStop] :=
  c7_invalid_key_fatal [0xFF] 1 [4, 0, 0, 0] (by norm_num) (by decide)

/-- **C8** (amended): on every path where construction of the richer
library reader fails — including the quantization-type `ValueError` that
triggers the raw fallback — `inspect_gguf` returns gracefully and no
exception escapes; but when the reader succeeds, the unguarded
`general.architecture` field access of line 55 can raise unhandled (see
`c8_counterexample`). -/
theorem c8_graceful_on_reader_failure (s : ByteStream) :
    inspect_gguf .quantTypeValueError s ≠ .unhandledException ∧
    inspect_gguf .otherValueError s ≠ .unhandledException ∧
    inspect_gguf .otherException s ≠ .unhandledException := by
  refine ⟨?_, ?_, ?_⟩ <;> simp [inspect_gguf]

/-- **C8** fails as originally stated: when the reader succeeds but the
file has no `general.architecture` field, `get_field` returns `None` and
line 55's `.parts` access raises an AttributeError that nothing
catches. -/
theorem c8_counterexample :
    inspect_gguf (.success none) [] = .unhandledException := rfl

/-- **C9**: when the path pre-check fails, the `__main__` block reports
non-existence and never enters `inspect_gguf` — no parsing, no
exception, whatever the file bytes and library state would have been. -/
theorem c9_not_found_no_parse (lib : GGUFLibOutcome) (s : ByteStream) :
    mainProgram false lib s = .reportedNotFound := rfl

/-- **C10** (amended): a declared 8-byte length larger than the
remaining stream is never detected as truncation.  First conjunct: a
string value whose declared length `L` exceeds its remaining bytes `bs`
still yields an emitted pair whose value decodes just the available
bytes — replacement decoding is total, so this never raises.  Second
conjunct: a key read in the same situation likewise gets only the
available bytes, with no length check, and decodes them silently
whenever they are valid UTF-8; when the truncated bytes are invalid
UTF-8 the ordinary strict key decode raises instead (see
`c10_counterexample`) — an error about the bytes read, never about the
missing length. -/
theorem c10_truncation_undetected :
    (∀ (key bs : List Nat) (L n : Nat),
      (∀ c ∈ key, ScalarCP c) → (utf8Encode key).length < 2 ^ 64 →
      bs.length < L → L < 2 ^ 64 →
      parseKVLoop (n + 1) (encodeU64 (utf8Encode key).length ++ utf8Encode key ++
          encodeU32 8 ++ encodeU64 L ++ bs) =
        .pair key (.vstr (utf8DecodeRepl bs)) :: parseKVLoop n []) ∧
    (∀ (keyB cs : List Nat) (L : Nat),
      keyB.length < L → L < 2 ^ 64 → utf8Decode keyB = some cs →
      readKey (encodeU64 L ++ keyB) = some (cs, [])) := by
  constructor
  · intro key bs L n hk hkl hshort hL
    rw [parseKVLoop.eq_def]
    simp only [List.append_assoc, readKey_encoded key _ hk hkl,
      readExact_append _ _ 4 (encodeU32_length _), leDecode_encodeU32 8 (by norm_num),
      readExact_append _ _ 8 (encodeU64_length _), leDecode_encodeU64 L hL,
      streamRead_short bs L (Nat.le_of_lt hshort)]
    norm_num
  · intro keyB cs L hshort hL hdec
    simp only [readKey, readExact_append _ _ 8 (encodeU64_length _), leDecode_encodeU64 L hL,
      streamRead_short keyB L (Nat.le_of_lt hshort), hdec]

/-- Witness for C10: declared length 100, two bytes available — the
truncated value is still emitted. -/
theorem c10_witness :
    parseKVLoop (0 + 1) (encodeU64 (utf8Encode [107]).length ++ utf8Encode [107] ++
        encodeU32 8 ++ encodeU64 100 ++ [104, 105]) =
      .pair [107] (.vstr (utf8DecodeRepl [104, 105])) :: parseKVLoop 0 [] :=
  c10_truncation_undetected.1 [107] [104, 105] 100 0
    (by decide) (by decide) (by norm_num) (by norm_num)

/-- **C10** fails as originally stated for keys: with declared key
length 2 and only the byte `0xFF` remaining, the available bytes are
not valid UTF-8, so the strict key decode raises (UnicodeDecodeError,
modelled by `none`) and the walk reports the error diagnostic — not a
silently truncated key. -/
theorem c10_counterexample :
    readKey (encodeU64 2 ++ [0xFF]) = none ∧
    parseKVLoop (0 + 1) (encodeU64 2 ++ [0xFF]) = [.errStop] := by
  constructor
  · decide
  · decide

end GGUFInspect
